import Mathlib

/-!
# wion_turn: the TURN server and client command-line programs

A shallow embedding of `cmd/server/main.go`, `cmd/client/main.go` and
`lib/config/config.go`.

Conventions of the embedding.

* A Go `string` is a Lean `String`; the scanning helpers work on its list of
  characters.  Every byte the programs compare against (`=`, `-`, the class
  `\w`) is ASCII, so scanning characters and scanning UTF-8 bytes find the same
  positions.
* A Go `[]byte` is a `List Nat`; the `nil` slice is `[]`.
* Calls into the operating system and into the pion library (binding a socket,
  dialling, `turn.NewServer`, `client.Allocate`, ...) are oracles: fields of a
  world record that say whether the call fails (`some err`) or succeeds
  (`none`).  Pure library functions the programs only pass values through
  (`turn.GenerateAuthKey`, `net.ParseIP`, `strconv.ParseInt`) are fields of the
  same record.
* A function that can end the process returns an `Outcome`; the calls it makes
  on the way are recorded, in order, in a list of events.
-/

namespace WionTurn

/-! ## Common data -/

/-- Go byte slice; the nil slice is the empty list. -/
abbrev Bytes := List Nat

/-- How a Go function call ends: it returns a value, the process exits
(`os.Exit(code)`, also reached through `log.Fatalf`, which exits with status 1
without running deferred calls), or a panic unwinds out of it. -/
inductive Outcome (α : Type) where
  | ret (a : α)
  | exit (code : Nat) (msg : String)
  | panic (msg : String)
  deriving DecidableEq, Repr

/-- The call `log.Fatalf(format, ...)`: print and `os.Exit(1)`. -/
def logFatalf {α : Type} (msg : String) : Outcome α := Outcome.exit 1 msg

/-- The call `log.Panicf(format, ...)`: print and panic with the message. -/
def logPanicf {α : Type} (msg : String) : Outcome α := Outcome.panic msg

/-! ## The pattern `(\w+)=(\w+)` (server, line 67) -/

/-- The class `\w` of Go regular expressions: `[0-9A-Za-z_]`, ASCII only. -/
def isWordChar (c : Char) : Bool := c.isAlphanum || c == '_'

/-- One result of `FindAllStringSubmatch`: `kv[0]` is the matched text,
`kv[1]` and `kv[2]` the two capture groups. -/
structure Submatch where
  whole : String
  g1 : String
  g2 : String
  deriving DecidableEq, Repr

/-- An attempt to match `(\w+)=(\w+)` with the match starting at the head of
`s`.  The first `\w+` is greedy: it takes the whole run of word characters; a
shorter choice would leave a word character where `=` is required, so
backtracking cannot succeed.  Then `=` is required, and the second greedy
`\w+` takes the whole following run.  The result is both captures and the text
after the match. -/
def matchAt (s : List Char) : Option (List Char × List Char × List Char) :=
  let w1 := s.takeWhile isWordChar
  if w1.isEmpty then none
  else
    match s.dropWhile isWordChar with
    | '=' :: r =>
      let w2 := r.takeWhile isWordChar
      if w2.isEmpty then none else some (w1, w2, r.dropWhile isWordChar)
    | _ => none

/-- The loop of `FindAllStringSubmatch(s, -1)`: try a match at the current
position; on success record it and continue right after it, otherwise advance
by one character.  A match is never empty, so the search after a match is on a
shorter text and `fuel = length` suffices. -/
def findAllFuel : Nat → List Char → List (List Char × List Char)
  | 0, _ => []
  | _, [] => []
  | n + 1, c :: cs =>
    match matchAt (c :: cs) with
    | some (w1, w2, rest) => (w1, w2) :: findAllFuel n rest
    | none => findAllFuel n cs

/-- The captures of all leftmost non-overlapping matches in `s`. -/
def findAll (s : List Char) : List (List Char × List Char) :=
  findAllFuel s.length s

/-- The call `regexp.MustCompile("(\\w+)=(\\w+)").FindAllStringSubmatch(users, -1)`. -/
def FindAllStringSubmatch (users : String) : List Submatch :=
  (findAll users.data).map fun p =>
    { whole := String.mk (p.1 ++ '=' :: p.2), g1 := String.mk p.1, g2 := String.mk p.2 }

/-! ### The pattern, stated declaratively -/

/-- Specification: `t` is a text of the language of `(\w+)=(\w+)` with first
capture `w1` and second capture `w2`. -/
def InPattern (t w1 w2 : List Char) : Prop :=
  w1 ≠ [] ∧ (∀ c ∈ w1, isWordChar c = true) ∧
  w2 ≠ [] ∧ (∀ c ∈ w2, isWordChar c = true) ∧ t = w1 ++ '=' :: w2

/-- Specification: some match of the pattern starts at the head of `s`. -/
def StartsMatch (s : List Char) : Prop :=
  ∃ t w1 w2 rest, InPattern t w1 w2 ∧ s = t ++ rest

/-- Specification: `ms` are the captures of the leftmost non-overlapping
matches of the pattern in `s`, in order.  Scanning from the left, a position
where no match starts is skipped; at the first position where one starts the
(greedy, hence maximal) match is taken and the scan continues right after it. -/
inductive LeftmostMatches : List Char → List (List Char × List Char) → Prop
  | done : LeftmostMatches [] []
  | skip (c : Char) (s : List Char) (ms : List (List Char × List Char)) :
      ¬ StartsMatch (c :: s) → LeftmostMatches s ms → LeftmostMatches (c :: s) ms
  | take (t w1 w2 rest : List Char) (ms : List (List Char × List Char)) :
      InPattern t w1 w2 → (∀ c r, rest = c :: r → isWordChar c = false) →
      LeftmostMatches rest ms → LeftmostMatches (t ++ rest) ((w1, w2) :: ms)

/-- Specification: the text of a users setting made of the entries
`name=secret`, in order, with `sep` between two consecutive entries. -/
def renderUsers (sep : List Char) : List (String × String) → List Char
  | [] => []
  | [e] => e.1.data ++ '=' :: e.2.data
  | e :: e2 :: es => (e.1.data ++ '=' :: e.2.data) ++ (sep ++ renderUsers sep (e2 :: es))

/-- Specification: a well-formed entry has a name and a secret that are not
empty and consist of word characters. -/
def WellFormedEntry (e : String × String) : Prop :=
  e.1.data ≠ [] ∧ (∀ c ∈ e.1.data, isWordChar c = true) ∧
  e.2.data ≠ [] ∧ (∀ c ∈ e.2.data, isWordChar c = true)

instance : DecidablePred WellFormedEntry := fun e => by
  unfold WellFormedEntry
  infer_instance

/-! ## The server (`cmd/server/main.go`) -/

/-- The record `config.AppConf`. -/
structure AppConf where
  PublicIP : String
  Port : String
  Users : String
  Realm : String
  LogDir : String
  IsTCP : Bool
  deriving DecidableEq, Repr

/-- The Go map `usersMap`, a `map[string][]byte`: an association list with at
most one entry per key. -/
abbrev UsersMap := List (String × Bytes)

/-- The map read `usersMap[k]` in its two-result form; `none` is `ok = false`. -/
def UsersMap.get (m : UsersMap) (k : String) : Option Bytes := List.lookup k m

/-- The map assignment `usersMap[k] = v`: replaces an entry with the same key. -/
def UsersMap.set (m : UsersMap) (k : String) (v : Bytes) : UsersMap :=
  (k, v) :: m.filter fun e => e.1 != k

/-- A listener handle as returned by `net.Listen`: what it is bound to. -/
structure Listener where
  network : String
  address : String
  deriving DecidableEq, Repr

/-- A packet connection handle as returned by `net.ListenPacket`. -/
structure PacketConn where
  network : String
  address : String
  deriving DecidableEq, Repr

/-- The wrapper `stunLogger` around a `net.PacketConn`. -/
structure stunLogger where
  PacketConn : PacketConn
  deriving DecidableEq, Repr

/-- The record `turn.RelayAddressGeneratorStatic`. -/
structure RelayAddressGeneratorStatic where
  RelayAddress : Bytes
  Address : String
  deriving DecidableEq, Repr

/-- The record `turn.ListenerConfig`. -/
structure ListenerConfig where
  Listener : Listener
  RelayAddressGenerator : RelayAddressGeneratorStatic
  deriving DecidableEq, Repr

/-- The record `turn.PacketConnConfig`. -/
structure PacketConnConfig where
  PacketConn : stunLogger
  RelayAddressGenerator : RelayAddressGeneratorStatic
  deriving DecidableEq, Repr

/-- The function literal assigned to `AuthHandler` (lines 78-83 and, with the
same text, lines 102-107): a closure whose only captured variable is
`usersMap`. -/
structure AuthHandler where
  usersMap : UsersMap
  deriving DecidableEq, Repr

/-- A call of the closure: `if key, ok := usersMap[username]; ok { return key,
true }; return nil, false`.  The result is the pair `(key, ok)` together with
the closure after the call, that is, with its captured `usersMap`. -/
def AuthHandler.call {Addr : Type} (h : AuthHandler) (username _realm : String) (_srcAddr : Addr) :
    (Bytes × Bool) × AuthHandler :=
  match h.usersMap.get username with
  | some key => ((key, true), h)
  | none => (([], false), h)

/-- The fields of `turn.ServerConfig` that `serverConf` sets; the others keep
their zero value. -/
structure ServerConfig where
  Realm : String
  AuthHandler : AuthHandler
  ListenerConfigs : List ListenerConfig
  PacketConnConfigs : List PacketConnConfig
  deriving DecidableEq, Repr

/-- What the server program calls outside this repository. -/
structure ServerWorld where
  /-- The function `turn.GenerateAuthKey(username, realm, password)`. -/
  GenerateAuthKey : String → String → String → Bytes
  /-- The function `net.ParseIP`; nil for text that is not an address. -/
  ParseIP : String → Bytes
  /-- The error of `net.Listen(network, address)`, `none` on success. -/
  listenErr : String → String → Option String
  /-- The error of `net.ListenPacket(network, address)`, `none` on success. -/
  listenPacketErr : String → String → Option String
  /-- How `config.ReadAppConf()` ends and the `config.App` it leaves. -/
  readAppConf : Outcome AppConf
  /-- The error of `turn.NewServer(conf)`, `none` on success. -/
  newServerErr : ServerConfig → Option String
  /-- The error of `s.Close()`, `none` on success. -/
  closeErr : Option String

/-- Calls the server makes, in the order it makes them. -/
inductive SEvent where
  | printVersion
  | readAppConf
  | loggerNew (logDir : String)
  | println (s : String)
  | listen (network address : String)
  | listenPacket (network address : String)
  | fatalf (msg : String)
  | newServer (conf : ServerConfig)
  | waitSignal
  | serverClose
  | logPanic (msg : String)
  | loggerSync
  deriving DecidableEq, Repr

/-- Lines 66-69 of `serverConf`: the loop that fills `usersMap`. -/
def buildUsersMap (w : ServerWorld) (realm users : String) : UsersMap :=
  (FindAllStringSubmatch users).foldl
    (fun usersMap kv => usersMap.set kv.g1 (w.GenerateAuthKey kv.g1 realm kv.g2)) []

/-- The function `serverConf`, reading `config.App` from `app`. -/
def serverConf (w : ServerWorld) (app : AppConf) : List SEvent × Outcome ServerConfig :=
  let realm := app.Realm
  let users := app.Users
  let publicIP := app.PublicIP
  let usersMap := buildUsersMap w realm users
  if app.IsTCP then
    let addr := "0.0.0.0:" ++ app.Port
    match w.listenErr "tcp4" addr with
    | some err =>
      let msg := "Failed to create TURN server listener: " ++ err
      ([.println "is tcp", .listen "tcp4" addr, .fatalf msg], logFatalf msg)
    | none =>
      ([.println "is tcp", .listen "tcp4" addr],
        .ret {
          Realm := realm
          AuthHandler := { usersMap := usersMap }
          ListenerConfigs := [{
            Listener := { network := "tcp4", address := addr }
            RelayAddressGenerator := { RelayAddress := w.ParseIP publicIP, Address := "0.0.0.0" } }]
          PacketConnConfigs := [] })
  else
    let addr := "0.0.0.0:" ++ app.Port
    match w.listenPacketErr "udp4" addr with
    | some err =>
      let msg := "Failed to create TURN server listener: " ++ err
      ([.println "is udp", .listenPacket "udp4" addr, .fatalf msg], logFatalf msg)
    | none =>
      ([.println "is udp", .listenPacket "udp4" addr],
        .ret {
          Realm := realm
          AuthHandler := { usersMap := usersMap }
          ListenerConfigs := []
          PacketConnConfigs := [{
            PacketConn := { PacketConn := { network := "udp4", address := addr } }
            RelayAddressGenerator := { RelayAddress := w.ParseIP publicIP, Address := "0.0.0.0" } }] })

/-- The server's `main`.  `printVersion` is the value of the `-version` flag
set by `init`.  The deferred `logger.Sync()` runs when `main` returns or
panics, not when the process exits. -/
def serverMain (w : ServerWorld) (printVersion : Bool) : List SEvent × Outcome Unit :=
  if printVersion then ([.printVersion], .exit 0 "")
  else
    match w.readAppConf with
    | .exit code msg => ([.readAppConf], .exit code msg)
    | .panic msg => ([.readAppConf], .panic msg)
    | .ret app =>
      let pre := [SEvent.readAppConf, .loggerNew app.LogDir]
      match serverConf w app with
      | (tr, .exit code msg) => (pre ++ tr, .exit code msg)
      | (tr, .panic msg) => (pre ++ tr ++ [.loggerSync], .panic msg)
      | (tr, .ret conf) =>
        match w.newServerErr conf with
        | some err => (pre ++ tr ++ [.newServer conf, .logPanic err, .loggerSync], .panic err)
        | none =>
          match w.closeErr with
          | some err =>
            (pre ++ tr ++ [.newServer conf, .waitSignal, .serverClose, .logPanic err, .loggerSync],
              .panic err)
          | none =>
            (pre ++ tr ++ [.newServer conf, .waitSignal, .serverClose, .loggerSync], .ret ())

/-- A call `turn.NewServer` in a trace. -/
def SEvent.isNewServer : SEvent → Bool
  | .newServer _ => true
  | _ => false

/-- The error of binding the main listening transport (lines 72 and 96):
`net.Listen` on tcp4 when `IsTCP`, `net.ListenPacket` on udp4 otherwise, both
on `0.0.0.0:<port>`; `none` when the bind succeeds. -/
def bindError (w : ServerWorld) (app : AppConf) : Option String :=
  if app.IsTCP then w.listenErr "tcp4" ("0.0.0.0:" ++ app.Port)
  else w.listenPacketErr "udp4" ("0.0.0.0:" ++ app.Port)

/-- A sample server world: every bind and every library call succeeds, the
configuration file holds `app`, and the key function is a stand-in for
`turn.GenerateAuthKey` that keeps its three arguments apart. -/
def sampleServerWorld (app : AppConf) : ServerWorld where
  GenerateAuthKey := fun username realm password =>
    (username ++ ":" ++ realm ++ ":" ++ password).data.map Char.toNat
  ParseIP := fun s => s.data.map Char.toNat
  listenErr := fun _ _ => none
  listenPacketErr := fun _ _ => none
  readAppConf := .ret app
  newServerErr := fun _ => none
  closeErr := none

/-- A sample server world in which no socket can be bound. -/
def sampleServerWorldNoBind (app : AppConf) : ServerWorld where
  GenerateAuthKey := fun username realm password =>
    (username ++ ":" ++ realm ++ ":" ++ password).data.map Char.toNat
  ParseIP := fun s => s.data.map Char.toNat
  listenErr := fun _ _ => some "address already in use"
  listenPacketErr := fun _ _ => some "address already in use"
  readAppConf := .ret app
  newServerErr := fun _ => none
  closeErr := none

/-- A sample configuration in UDP mode with two users. -/
def sampleAppUDP : AppConf where
  PublicIP := "203.0.113.7"
  Port := "3478"
  Users := "alice=secret,bob=hunter2"
  Realm := "pion.ly"
  LogDir := "logs"
  IsTCP := false

/-- A sample configuration in TCP mode with two users. -/
def sampleAppTCP : AppConf where
  PublicIP := "203.0.113.7"
  Port := "3478"
  Users := "alice=secret,bob=hunter2"
  Realm := "pion.ly"
  LogDir := "logs"
  IsTCP := true

/-! ## The package `flag` as the client uses it -/

/-- The value a flag holds; the pointer returned by `flag.String`, `flag.Int`
or `flag.Bool` reads it. -/
inductive FlagValue where
  | bool (b : Bool)
  | int (i : Int)
  | str (s : String)
  deriving DecidableEq, Repr

/-- A defined flag: entry of `FlagSet.formal`. -/
structure Flag where
  name : String
  value : FlagValue
  deriving DecidableEq, Repr

/-- The defined flags of `flag.CommandLine` with their current values. -/
abbrev FlagSet := List Flag

/-- The entry `f.formal[name]`. -/
def FlagSet.lookup (fs : FlagSet) (name : String) : Option Flag :=
  fs.find? fun f => f.name == name

/-- Definition of a flag (`flag.Bool`, `flag.Int`, `flag.String`, through
`FlagSet.Var`): `none` stands for the panic "flag redefined". -/
def FlagSet.define (fs : FlagSet) (name : String) (dflt : FlagValue) : Option FlagSet :=
  match fs.lookup name with
  | some _ => none
  | none => some (fs ++ [{ name := name, value := dflt }])

/-- Assignment of a parsed value to a defined flag. -/
def FlagSet.assign (fs : FlagSet) (name : String) (v : FlagValue) : FlagSet :=
  fs.map fun f => if f.name == name then { f with value := v } else f

/-- Read through the pointer returned by `flag.Bool(name, ...)`. -/
def FlagSet.getBool (fs : FlagSet) (name : String) : Bool :=
  match fs.lookup name with
  | some ⟨_, .bool b⟩ => b
  | _ => false

/-- Read through the pointer returned by `flag.String(name, ...)`. -/
def FlagSet.getStr (fs : FlagSet) (name : String) : String :=
  match fs.lookup name with
  | some ⟨_, .str s⟩ => s
  | _ => ""

/-- Read through the pointer returned by `flag.Int(name, ...)`. -/
def FlagSet.getInt (fs : FlagSet) (name : String) : Int :=
  match fs.lookup name with
  | some ⟨_, .int i⟩ => i
  | _ => 0

/-- The function `strconv.ParseBool`. -/
def parseBool (s : String) : Option Bool :=
  if s ∈ ["1", "t", "T", "TRUE", "true", "True"] then some true
  else if s ∈ ["0", "f", "F", "FALSE", "false", "False"] then some false
  else none

/-- The function `strings.Index(s, sep)` for a one-byte separator: the offset
of the first occurrence, `none` for -1. -/
def indexOf (sep : Char) : List Char → Option Nat
  | [] => none
  | c :: cs => if c = sep then some 0 else (indexOf sep cs).map (· + 1)

/-- How one step of `FlagSet.parseOne` ends. -/
inductive ParseStep where
  /-- A flag was consumed: `return true, nil`. -/
  | seen (fs : FlagSet) (args : List String)
  /-- No more flags: `return false, nil`. -/
  | stop (fs : FlagSet) (args : List String)
  /-- The error `ErrHelp`. -/
  | help
  /-- Any other error, through `f.failf`. -/
  | fail (msg : String)
  deriving DecidableEq, Repr

/-- The cut of `name=value` in `parseOne`: the loop over `name[1:]` that looks
for the first equals sign (it cannot be first).  The result is the name and,
when there is an equals sign, the value. -/
def cutValue (n0 : Char) (tail : List Char) : String × Option String :=
  match indexOf '=' tail with
  | some i => (String.mk (n0 :: tail.take i), some (String.mk (tail.drop (i + 1))))
  | none => (String.mk (n0 :: tail), none)

/-- The value of a flag that is not boolean: the text after the equals sign,
or else the next argument, which is consumed; `none` when there is neither. -/
def takeValue (value : Option String) (rest : List String) : Option (String × List String) :=
  match value, rest with
  | some v, _ => some (v, rest)
  | none, next :: rest2 => some (next, rest2)
  | none, [] => none

/-- The second half of `FlagSet.parseOne`, from the lookup `f.formal[name]`
on.  `parseInt` is `strconv.ParseInt(s, 0, 64)`.  The text of the two "invalid
value" errors leaves out the quoted value and the cause. -/
def parseFlag (parseInt : String → Option Int) (fs : FlagSet) (name : String)
    (value : Option String) (rest : List String) : ParseStep :=
  match fs.lookup name with
  | none =>
    if name = "help" ∨ name = "h" then .help
    else .fail ("flag provided but not defined: -" ++ name)
  | some f =>
    match f.value with
    | .bool _ =>
      -- special case: a boolean flag does not need an argument
      match value with
      | some v =>
        match parseBool v with
        | some b => .seen (fs.assign name (.bool b)) rest
        | none => .fail ("invalid boolean value for -" ++ name)
      | none => .seen (fs.assign name (.bool true)) rest
    | .int _ =>
      match takeValue value rest with
      | none => .fail ("flag needs an argument: -" ++ name)
      | some (v, rest2) =>
        match parseInt v with
        | some i => .seen (fs.assign name (.int i)) rest2
        | none => .fail ("invalid value for flag -" ++ name)
    | .str _ =>
      match takeValue value rest with
      | none => .fail ("flag needs an argument: -" ++ name)
      | some (v, rest2) => .seen (fs.assign name (.str v)) rest2

/-- The method `FlagSet.parseOne` of the standard library: an argument that is
shorter than two bytes or does not start with `-` ends the flags, and so does
`--`, which is consumed; `numMinuses` leading minus signs are dropped; a name
that is empty or starts with `-` or `=` is a syntax error. -/
def parseOne (parseInt : String → Option Int) (fs : FlagSet) (args : List String) : ParseStep :=
  match args with
  | [] => .stop fs []
  | s :: rest =>
    match s.data with
    | '-' :: c :: cs =>
      let numMinuses := if c = '-' then 2 else 1
      if c = '-' ∧ cs = [] then .stop fs rest
      else
        match s.data.drop numMinuses with
        | [] => .fail ("bad flag syntax: " ++ s)
        | n0 :: tail =>
          if n0 = '-' ∨ n0 = '=' then .fail ("bad flag syntax: " ++ s)
          else parseFlag parseInt fs (cutValue n0 tail).1 (cutValue n0 tail).2 rest
    | _ => .stop fs args

/-- The loop of `FlagSet.Parse` on `flag.CommandLine`, whose error handling is
`ExitOnError`: `ErrHelp` exits with status 0, any other error with status 2.
Every step that continues consumes an argument, so one more unit of fuel
than there are arguments suffices. -/
def flagParseFuel (parseInt : String → Option Int) : Nat → FlagSet → List String → Outcome FlagSet
  | 0, fs, _ => .ret fs
  | n + 1, fs, args =>
    match parseOne parseInt fs args with
    | .seen fs2 args2 => flagParseFuel parseInt n fs2 args2
    | .stop fs2 _ => .ret fs2
    | .help => .exit 0 "flag: help requested"
    | .fail msg => .exit 2 msg

/-- The call `flag.Parse()` with `os.Args[1:] = args`. -/
def flagParse (parseInt : String → Option Int) (fs : FlagSet) (args : List String) :
    Outcome FlagSet :=
  flagParseFuel parseInt (args.length + 1) fs args

/-! ## `strings.SplitN` -/

/-- The loop of `genSplit`: at most `k` more cuts at the separator. -/
def splitLoop (sep : Char) : List Char → Nat → List (List Char)
  | s, 0 => [s]
  | s, k + 1 =>
    match indexOf sep s with
    | none => [s]
    | some m => s.take m :: splitLoop sep (s.drop (m + 1)) k

/-- The function `strings.genSplit(s, sep, 0, n)` behind `strings.SplitN`, for
a one-byte separator: `n = 0` gives nil, a negative `n` means all pieces, and
`n` is capped at `len(s) + 1`.  The cap only bounds the size of the result
slice (a text has fewer separators than bytes or characters), so counting
characters instead of bytes gives the same pieces. -/
def genSplit (s : List Char) (sep : Char) (n : Int) : List (List Char) :=
  if n = 0 then []
  else
    let n1 : Nat := if n < 0 then s.count sep + 1 else n.toNat
    let n2 : Nat := if n1 > s.length + 1 then s.length + 1 else n1
    splitLoop sep s (n2 - 1)

/-- The call `strings.SplitN(s, "=", n)`. -/
def SplitN (s : String) (n : Int) : List String :=
  (genSplit s.data '=' n).map String.mk

/-! ## The client (`cmd/client/main.go`) -/

/-- The connection a `turn.ClientConfig` carries: `turn.NewSTUNConn` around a
dialled TCP connection, or the packet connection itself. -/
inductive Conn where
  | stun (network address : String)
  | packet (network address : String)
  deriving DecidableEq, Repr

/-- The value `logging.NewDefaultLoggerFactory()`. -/
inductive LoggerFactory where
  | dflt
  deriving DecidableEq, Repr

/-- The fields of `turn.ClientConfig` that `clientConf` sets. -/
structure ClientConfig where
  STUNServerAddr : String
  TURNServerAddr : String
  Conn : Conn
  Username : String
  Password : String
  Realm : String
  LoggerFactory : LoggerFactory
  deriving DecidableEq, Repr

/-- A resolved `net.TCPAddr`. -/
structure TCPAddr where
  IP : Bytes
  Port : Nat
  deriving DecidableEq, Repr

/-- What the client program calls outside this repository. -/
structure ClientWorld where
  /-- The function `strconv.ParseInt(s, 0, 64)`, used by `flag.Int`. -/
  parseInt : String → Option Int
  /-- The error of `net.Dial(network, address)`, `none` on success. -/
  dialErr : String → String → Option String
  /-- The error of `net.ListenPacket(network, address)`. -/
  listenPacketErr : String → String → Option String
  /-- The error of the deferred `conn.Close()` in `clientConf`. -/
  connCloseErr : Option String
  /-- The error of `turn.NewClient(cfg)`. -/
  newClientErr : ClientConfig → Option String
  /-- The error of `client.Listen()`. -/
  clientListenErr : Option String
  /-- The error of `client.Allocate()`. -/
  allocateErr : Option String
  /-- The error of `relayConn.Close()`. -/
  relayCloseErr : Option String
  /-- The error returned by `doPingTest`. -/
  pingErr : Option String
  /-- The error of `client.AllocateTCP()`. -/
  allocateTCPErr : Option String
  /-- The error of `allocation.Close()`. -/
  allocationCloseErr : Option String
  /-- What `setupSignalingChannel` and the receive `<-addrCh` deliver: the
  text of the peer address, or a panic raised while exchanging addresses. -/
  signal : Bool → Outcome String
  /-- The function `net.ResolveTCPAddr("tcp", s)`. -/
  resolveTCPAddr : String → Except String TCPAddr
  /-- The error of `allocation.DialTCP("tcp", nil, peerAddr)`. -/
  dialTCPErr : TCPAddr → Option String
  /-- The error of `client.CreatePermission(peerAddr)`. -/
  createPermissionErr : TCPAddr → Option String
  /-- The error of `allocation.AcceptTCP()`. -/
  acceptTCPErr : Option String
  /-- The error of `conn.Write` on the relayed connection. -/
  relayWriteErr : Option String
  /-- The error of `conn.Read` on the relayed connection. -/
  relayReadErr : Option String
  /-- The error of `conn.Close` on the relayed connection. -/
  relayConnCloseErr : Option String

/-- Calls the client makes, in the order it makes them.  `createPermission`
records whether the call returned without error. -/
inductive CEvent where
  | flagParse (args : List String)
  | dial (network address : String)
  | listenPacket (network address : String)
  | connClose
  | newClient (cfg : ClientConfig)
  | clientListen
  | clientClose
  | allocate
  | relayClose
  | doPingTest
  | allocateTCP
  | allocationClose
  | setupSignalingChannel (signaling : Bool)
  | resolveTCPAddr (s : String)
  | dialTCP (peerAddr : TCPAddr)
  | createPermission (peerAddr : TCPAddr) (ok : Bool)
  | acceptTCP
  | relayWrite (data : String)
  | relayRead
  | relayConnClose
  deriving DecidableEq, Repr

/-- The index expression `xs[i]` on a slice: a run-time panic when `i` is out
of range. -/
def index (xs : List String) (i : Nat) : Outcome String :=
  match xs.get? i with
  | some x => .ret x
  | none =>
    .panic ("runtime error: index out of range [" ++ toString i ++ "] with length " ++
      toString xs.length)

/-- A deferred `if closeErr := x.Close(); closeErr != nil { log.Panicf(...) }`
around a function body that ended as `r`: it runs when the body returns or
panics (a panic of the deferred call replaces the one in flight) and does not
run when the process exits. -/
def deferClose {α : Type} (closeErr : Option String) (ev : CEvent) (r : List CEvent × Outcome α) :
    List CEvent × Outcome α :=
  match r.2 with
  | .exit _ _ => r
  | _ =>
    match closeErr with
    | none => (r.1 ++ [ev], r.2)
    | some err => (r.1 ++ [ev], logPanicf ("Failed to close connection: " ++ err))

/-- The composite literal `&turn.ClientConfig{...}` of lines 42-50 and 62-70:
its operands `cred[0]` and `cred[1]` are evaluated in order. -/
def mkClientConfig (turnServerAddr : String) (conn : Conn) (cred : List String) (realm : String) :
    Outcome ClientConfig :=
  match index cred 0 with
  | .ret username =>
    match index cred 1 with
    | .ret password =>
      .ret {
        STUNServerAddr := turnServerAddr
        TURNServerAddr := turnServerAddr
        Conn := conn
        Username := username
        Password := password
        Realm := realm
        LoggerFactory := .dflt }
    | .exit code msg => .exit code msg
    | .panic msg => .panic msg
  | .exit code msg => .exit code msg
  | .panic msg => .panic msg

/-- Lines 24-71 of `clientConf`: what it does with the parsed flag values. -/
def clientConfBody (w : ClientWorld) (host : String) (port : Int) (user realm : String)
    (isTcp : Bool) : List CEvent × Outcome ClientConfig :=
  if host.length = 0 then ([], logFatalf "'host' is required")
  else if user.length = 0 then ([], logFatalf "'user' is required")
  else
    let cred := SplitN user 2
    let turnServerAddr := host ++ ":" ++ toString port
    if isTcp then
      match w.dialErr "tcp" turnServerAddr with
      | some err =>
        ([.dial "tcp" turnServerAddr], logPanicf ("Failed to connect to TURN server: " ++ err))
      | none =>
        ([.dial "tcp" turnServerAddr],
          mkClientConfig turnServerAddr (.stun "tcp" turnServerAddr) cred realm)
    else
      match w.listenPacketErr "udp4" "0.0.0.0:0" with
      | some err =>
        ([.listenPacket "udp4" "0.0.0.0:0"], logPanicf ("Failed to listen: " ++ err))
      | none =>
        deferClose w.connCloseErr .connClose
          ([.listenPacket "udp4" "0.0.0.0:0"],
            mkClientConfig turnServerAddr (.packet "udp4" "0.0.0.0:0") cred realm)

/-- The five flags `clientConf` defines (lines 17-21) on the empty command-line
set; the names differ, so no definition panics. -/
def clientFlags : FlagSet :=
  [ { name := "host", value := .str "" },
    { name := "port", value := .int 3478 },
    { name := "user", value := .str "" },
    { name := "realm", value := .str "pion.ly" },
    { name := "is-tcp", value := .bool false } ]

/-- The function `clientConf` run on the command line `args`.  The second
component is `flag.CommandLine` as the function leaves it. -/
def clientConf (w : ClientWorld) (args : List String) :
    List CEvent × FlagSet × Outcome ClientConfig :=
  match flagParse w.parseInt clientFlags args with
  | .exit code msg => ([.flagParse args], clientFlags, .exit code msg)
  | .panic msg => ([.flagParse args], clientFlags, .panic msg)
  | .ret fs =>
    let r := clientConfBody w (fs.getStr "host") (fs.getInt "port") (fs.getStr "user")
      (fs.getStr "realm") (fs.getBool "is-tcp")
    (.flagParse args :: r.1, fs, r.2)

/-- The function `testClient`, entered with `flag.CommandLine = fs`.  The
pointer `ping` is read at line 112; nothing parses the command line between
the definition of the flag at line 92 and that read.  The body of `doPingTest`
(sockets, goroutines, timers) is not embedded: the call is an event and its
error an oracle. -/
def testClient (w : ClientWorld) (fs : FlagSet) : List CEvent × Outcome Unit :=
  match fs.define "ping" (.bool false) with
  | none => ([], .panic "flag redefined: ping")
  | some fs1 =>
    match w.allocateErr with
    | some err => ([.allocate], logPanicf ("Failed to allocate: " ++ err))
    | none =>
      deferClose w.relayCloseErr .relayClose
        (if fs1.getBool "ping" then
          match w.pingErr with
          | some err => ([.allocate, .doPingTest], logPanicf ("Failed to ping: " ++ err))
          | none => ([.allocate, .doPingTest], .ret ())
        else ([.allocate], .ret ()))

/-- The deferred `client.Close()` of `main`, whose result is not checked. -/
def deferClientClose {α : Type} (r : List CEvent × Outcome α) : List CEvent × Outcome α :=
  match r.2 with
  | .exit _ _ => r
  | _ => (r.1 ++ [.clientClose], r.2)

/-- The client's `main` run on the command line `args`. -/
def clientMain (w : ClientWorld) (args : List String) : List CEvent × Outcome Unit :=
  match clientConf w args with
  | (tr, _, .exit code msg) => (tr, .exit code msg)
  | (tr, _, .panic msg) => (tr, .panic msg)
  | (tr, fs, .ret cfg) =>
    match w.newClientErr cfg with
    | some err => (tr ++ [.newClient cfg], logPanicf ("Failed to create TURN client: " ++ err))
    | none =>
      deferClientClose
        (match w.clientListenErr with
        | some err =>
          (tr ++ [.newClient cfg, .clientListen], logPanicf ("Failed to listen: " ++ err))
        | none =>
          let r := testClient w fs
          (tr ++ [.newClient cfg, .clientListen] ++ r.1, r.2))

/-- A sample client world: every call succeeds and the peer announces the
address 198.51.100.9:40000.  The integer reader is a stand-in for
`strconv.ParseInt` that reads decimal digits. -/
def sampleClientWorld : ClientWorld where
  parseInt := fun s => s.toInt?
  dialErr := fun _ _ => none
  listenPacketErr := fun _ _ => none
  connCloseErr := none
  newClientErr := fun _ => none
  clientListenErr := none
  allocateErr := none
  relayCloseErr := none
  pingErr := none
  allocateTCPErr := none
  allocationCloseErr := none
  signal := fun _ => .ret "198.51.100.9:40000"
  resolveTCPAddr := fun _ => .ok { IP := [198, 51, 100, 9], Port := 40000 }
  dialTCPErr := fun _ => none
  createPermissionErr := fun _ => none
  acceptTCPErr := none
  relayWriteErr := none
  relayReadErr := none
  relayConnCloseErr := none

theorem isWordChar_eq_sign : isWordChar '=' = false := by decide

theorem dropWhile_head_not (p : Char → Bool) (s : List Char) (c : Char) (r : List Char)
    (h : s.dropWhile p = c :: r) : p c = false := by
  have hne : s.dropWhile p ≠ [] := by simp [h]
  have := List.head_dropWhile_not p s hne
  simpa [h] using this

/-- A successful attempt yields a text of the pattern, followed by the rest,
and the second capture is maximal. -/
theorem matchAt_some {s w1 w2 rest : List Char} (h : matchAt s = some (w1, w2, rest)) :
    InPattern (w1 ++ '=' :: w2) w1 w2 ∧ s = (w1 ++ '=' :: w2) ++ rest ∧
      ∀ c r, rest = c :: r → isWordChar c = false := by
  unfold matchAt at h
  simp only at h
  split at h
  · exact absurd h (by simp)
  · rename_i hw1
    split at h
    · rename_i r hdrop
      split at h
      · exact absurd h (by simp)
      · rename_i hw2
        simp only [Option.some.injEq, Prod.mk.injEq] at h
        obtain ⟨h1, h2, h3⟩ := h
        subst h1 h2 h3
        refine ⟨⟨?_, ?_, ?_, ?_, rfl⟩, ?_, ?_⟩
        · intro h0
          exact hw1 (by simp [h0])
        · intro c hc
          exact List.mem_takeWhile_imp hc
        · intro h0
          exact hw2 (by simp [h0])
        · intro c hc
          exact List.mem_takeWhile_imp hc
        · have h1 := List.takeWhile_append_dropWhile isWordChar s
          have h2 := List.takeWhile_append_dropWhile isWordChar r
          rw [hdrop] at h1
          calc s = List.takeWhile isWordChar s ++ '=' :: r := h1.symm
            _ = List.takeWhile isWordChar s ++
                  '=' :: (List.takeWhile isWordChar r ++ List.dropWhile isWordChar r) := by
                rw [h2]
            _ = _ := by simp
        · intro c r2 hr
          exact dropWhile_head_not isWordChar r c r2 hr
    · exact absurd h (by simp)

/-- Where a text of the pattern starts, the attempt succeeds with the captures
of that text when the second capture is maximal. -/
theorem matchAt_of_pattern {t w1 w2 rest : List Char} (hp : InPattern t w1 w2)
    (hg : ∀ c r, rest = c :: r → isWordChar c = false) :
    matchAt (t ++ rest) = some (w1, w2, rest) := by
  obtain ⟨hne1, hw1, hne2, hw2, rfl⟩ := hp
  have ht : List.takeWhile isWordChar ((w1 ++ '=' :: w2) ++ rest) = w1 := by
    rw [List.append_assoc, List.takeWhile_append_of_pos hw1]
    simp [isWordChar_eq_sign]
  have hd : List.dropWhile isWordChar ((w1 ++ '=' :: w2) ++ rest) = '=' :: (w2 ++ rest) := by
    rw [List.append_assoc, List.dropWhile_append_of_pos hw1]
    simp [isWordChar_eq_sign]
  have hrt : List.takeWhile isWordChar rest = [] := by
    cases rest with
    | nil => rfl
    | cons c r => simp [hg c r rfl]
  have hrd : List.dropWhile isWordChar rest = rest := by
    cases rest with
    | nil => rfl
    | cons c r => simp [hg c r rfl]
  have ht2 : List.takeWhile isWordChar (w2 ++ rest) = w2 := by
    rw [List.takeWhile_append_of_pos hw2, hrt, List.append_nil]
  have hd2 : List.dropWhile isWordChar (w2 ++ rest) = rest := by
    rw [List.dropWhile_append_of_pos hw2, hrd]
  unfold matchAt
  simp only [ht, hd, ht2, hd2]
  cases w1 with
  | nil => exact absurd rfl hne1
  | cons a as =>
    cases w2 with
    | nil => exact absurd rfl hne2
    | cons b bs => simp

/-- Where some text of the pattern starts, the attempt succeeds. -/
theorem matchAt_isSome_of_startsMatch {s : List Char} (h : StartsMatch s) :
    (matchAt s).isSome = true := by
  obtain ⟨t, w1, w2, rest, hp, rfl⟩ := h
  obtain ⟨hne1, hw1, hne2, hw2, rfl⟩ := hp
  -- extend the second capture to the whole run of word characters
  have hp2 : InPattern (w1 ++ '=' :: (w2 ++ rest.takeWhile isWordChar)) w1
      (w2 ++ rest.takeWhile isWordChar) := by
    refine ⟨hne1, hw1, by simp [hne2], ?_, rfl⟩
    intro c hc
    rcases List.mem_append.mp hc with h | h
    · exact hw2 c h
    · exact List.mem_takeWhile_imp h
  have hg : ∀ c r, rest.dropWhile isWordChar = c :: r → isWordChar c = false :=
    fun c r hr => dropWhile_head_not isWordChar rest c r hr
  have := matchAt_of_pattern hp2 hg
  have hs : (w1 ++ '=' :: (w2 ++ rest.takeWhile isWordChar)) ++ rest.dropWhile isWordChar
      = (w1 ++ '=' :: w2) ++ rest := by
    simp [List.takeWhile_append_dropWhile]
  rw [hs] at this
  rw [this]
  rfl

theorem not_startsMatch_of_matchAt_none {s : List Char} (h : matchAt s = none) :
    ¬ StartsMatch s := by
  intro hs
  have := matchAt_isSome_of_startsMatch hs
  simp [h] at this

theorem startsMatch_of_matchAt_some {s w1 w2 rest : List Char}
    (h : matchAt s = some (w1, w2, rest)) : StartsMatch s := by
  obtain ⟨hp, hs, _⟩ := matchAt_some h
  exact ⟨_, w1, w2, rest, hp, hs⟩

/-- A match consumes at least one character. -/
theorem matchAt_rest_length {c : Char} {cs w1 w2 rest : List Char}
    (h : matchAt (c :: cs) = some (w1, w2, rest)) : rest.length ≤ cs.length := by
  obtain ⟨_, hs, _⟩ := matchAt_some h
  have := congrArg List.length hs
  simp at this
  omega

/-- Fuel beyond the length of the text changes nothing. -/
theorem findAllFuel_eq (n : Nat) : ∀ (m : Nat) (s : List Char), s.length ≤ n → s.length ≤ m →
    findAllFuel n s = findAllFuel m s := by
  induction n with
  | zero =>
    intro m s hn _
    have : s = [] := List.length_eq_zero.mp (Nat.le_zero.mp hn)
    subst this
    cases m <;> rfl
  | succ n ih =>
    intro m s hn hm
    cases s with
    | nil => cases m <;> rfl
    | cons c cs =>
      cases m with
      | zero => simp at hm
      | succ m =>
        simp only [List.length_cons, Nat.add_le_add_iff_right] at hn hm
        simp only [findAllFuel]
        cases hma : matchAt (c :: cs) with
        | none => exact ih m cs hn hm
        | some r =>
          obtain ⟨w1, w2, rest⟩ := r
          have hl := matchAt_rest_length hma
          simp only
          rw [ih m rest (by omega) (by omega)]

theorem findAll_nil : findAll [] = [] := rfl

theorem findAll_cons_none {c : Char} {cs : List Char} (h : matchAt (c :: cs) = none) :
    findAll (c :: cs) = findAll cs := by
  unfold findAll
  simp only [List.length_cons, findAllFuel, h]

theorem findAll_cons_some {c : Char} {cs w1 w2 rest : List Char}
    (h : matchAt (c :: cs) = some (w1, w2, rest)) :
    findAll (c :: cs) = (w1, w2) :: findAll rest := by
  unfold findAll
  simp only [List.length_cons, findAllFuel, h]
  rw [findAllFuel_eq cs.length rest.length rest (matchAt_rest_length h) (Nat.le_refl _)]

/-- The scanner computes the leftmost non-overlapping matches. -/
theorem findAll_leftmost (n : Nat) : ∀ s : List Char, s.length ≤ n →
    LeftmostMatches s (findAll s) := by
  induction n with
  | zero =>
    intro s hn
    have : s = [] := List.length_eq_zero.mp (Nat.le_zero.mp hn)
    subst this
    exact LeftmostMatches.done
  | succ n ih =>
    intro s hn
    cases s with
    | nil => exact LeftmostMatches.done
    | cons c cs =>
      simp only [List.length_cons, Nat.add_le_add_iff_right] at hn
      cases hma : matchAt (c :: cs) with
      | none =>
        rw [findAll_cons_none hma]
        exact LeftmostMatches.skip c cs _ (not_startsMatch_of_matchAt_none hma) (ih cs hn)
      | some r =>
        obtain ⟨w1, w2, rest⟩ := r
        rw [findAll_cons_some hma]
        obtain ⟨hp, hs, hg⟩ := matchAt_some hma
        have hl := matchAt_rest_length hma
        rw [hs]
        exact LeftmostMatches.take _ w1 w2 rest _ hp hg (ih rest (by omega))

/-- The leftmost non-overlapping matches are unique: they are what the scanner
computes. -/
theorem leftmost_unique {s : List Char} {ms : List (List Char × List Char)}
    (h : LeftmostMatches s ms) : ms = findAll s := by
  induction h with
  | done => rfl
  | skip c s ms hns _ ih =>
    have hnone : matchAt (c :: s) = none := by
      cases hma : matchAt (c :: s) with
      | none => rfl
      | some r =>
        obtain ⟨w1, w2, rest⟩ := r
        exact absurd (startsMatch_of_matchAt_some hma) hns
    rw [findAll_cons_none hnone]
    exact ih
  | take t w1 w2 rest ms hp hg _ ih =>
    have hma := matchAt_of_pattern hp hg
    obtain ⟨hne1, hw1, hne2, hw2, ht⟩ := hp
    cases w1 with
    | nil => exact absurd rfl hne1
    | cons a as =>
      subst ht
      simp only [List.cons_append] at hma ⊢
      rw [findAll_cons_some hma, ih]

/-! ## Lemmas on the users table -/

theorem lookup_filter_ne (m : UsersMap) {k name : String} (h : k ≠ name) :
    List.lookup name (m.filter fun e => e.1 != k) = List.lookup name m := by
  induction m with
  | nil => rfl
  | cons e m ih =>
    obtain ⟨a, b⟩ := e
    by_cases hak : a = k
    · subst hak
      have hna : (name == a) = false := by simpa using fun h2 => h h2.symm
      simp [List.filter_cons, List.lookup_cons, hna, ih]
    · have hne : (a != k) = true := by simpa using hak
      simp only [List.filter_cons, hne, if_true, List.lookup_cons]
      rw [ih]

theorem UsersMap.get_set (m : UsersMap) (k name : String) (v : Bytes) :
    (m.set k v).get name = if k = name then some v else m.get name := by
  unfold UsersMap.get UsersMap.set
  by_cases h : k = name
  · subst h
    simp
  · have hnk : (name == k) = false := by simpa using fun h2 => h h2.symm
    simp only [List.lookup_cons, hnk, h, if_false]
    exact lookup_filter_ne m h

/-- After the loop, a name maps to the key made from the last match with that
name, and to nothing when no match has it. -/
theorem foldl_set_get (f : Submatch → Bytes) (name : String) :
    ∀ (ms : List Submatch) (init : UsersMap),
      UsersMap.get (ms.foldl (fun usersMap kv => usersMap.set kv.g1 (f kv)) init) name =
        match ms.reverse.find? (fun kv => kv.g1 == name) with
        | some kv => some (f kv)
        | none => init.get name := by
  intro ms
  induction ms with
  | nil => intro init; rfl
  | cons a l ih =>
    intro init
    simp only [List.foldl_cons, List.reverse_cons, List.find?_append]
    rw [ih]
    cases hf : List.find? (fun kv => kv.g1 == name) l.reverse with
    | some kv => simp
    | none =>
      simp only [Option.none_or, List.find?_cons, List.find?_nil]
      rw [UsersMap.get_set]
      by_cases h : a.g1 = name
      · simp [h]
      · have : (a.g1 == name) = false := by simpa using h
        simp [h, this]

theorem find?_unique {α : Type} (p : α → Bool) (x : α) :
    ∀ l : List α, x ∈ l → p x = true → (∀ y ∈ l, p y = true → y = x) → l.find? p = some x := by
  intro l
  induction l with
  | nil => intro h; simp at h
  | cons a l ih =>
    intro hx hp hu
    by_cases hpa : p a = true
    · have := hu a (List.mem_cons_self _ _) hpa
      subst this
      simp [List.find?_cons, hpa]
    · have hpa2 : p a = false := by simpa using hpa
      simp only [List.find?_cons, hpa2]
      have hxl : x ∈ l := by
        rcases List.mem_cons.mp hx with h | h
        · subst h; exact absurd hp hpa
        · exact h
      exact ih hxl hp fun y hy hpy => hu y (List.mem_cons_of_mem _ hy) hpy

/-! ## Lemmas on well-formed users settings -/

theorem not_startsMatch_of_not_word {c : Char} (s : List Char) (hc : isWordChar c = false) :
    ¬ StartsMatch (c :: s) := by
  rintro ⟨t, w1, w2, rest, ⟨hne1, hw1, _, _, rfl⟩, hs⟩
  cases w1 with
  | nil => exact hne1 rfl
  | cons a as =>
    simp only [List.cons_append, List.cons.injEq] at hs
    have := hw1 a (List.mem_cons_self _ _)
    rw [← hs.1, hc] at this
    exact absurd this (by simp)

theorem leftmost_skip_nonword (R : List Char) (ms : List (List Char × List Char))
    (h : LeftmostMatches R ms) :
    ∀ pre : List Char, (∀ c ∈ pre, isWordChar c = false) → LeftmostMatches (pre ++ R) ms := by
  intro pre
  induction pre with
  | nil => intro _; exact h
  | cons c pre ih =>
    intro hpre
    have hc := hpre c (List.mem_cons_self _ _)
    exact LeftmostMatches.skip c (pre ++ R) ms (not_startsMatch_of_not_word _ hc)
      (ih fun d hd => hpre d (List.mem_cons_of_mem _ hd))

theorem inPattern_of_wellFormed {e : String × String} (h : WellFormedEntry e) :
    InPattern (e.1.data ++ '=' :: e.2.data) e.1.data e.2.data :=
  ⟨h.1, h.2.1, h.2.2.1, h.2.2.2, rfl⟩

/-- In a users setting made of well-formed entries, the leftmost
non-overlapping matches are the entries. -/
theorem leftmost_renderUsers (sep : List Char) (hsep : sep ≠ [])
    (hnw : ∀ c ∈ sep, isWordChar c = false) :
    ∀ entries : List (String × String), (∀ e ∈ entries, WellFormedEntry e) →
      LeftmostMatches (renderUsers sep entries) (entries.map fun e => (e.1.data, e.2.data)) := by
  intro entries
  induction entries with
  | nil => intro _; exact LeftmostMatches.done
  | cons e es ih =>
    intro hwf
    have hp := inPattern_of_wellFormed (hwf e (List.mem_cons_self _ _))
    cases es with
    | nil =>
      have := LeftmostMatches.take _ _ _ [] [] hp (by intro c r h; cases h) LeftmostMatches.done
      simpa [renderUsers] using this
    | cons e2 es =>
      have ih2 := ih fun x hx => hwf x (List.mem_cons_of_mem _ hx)
      have hrest := leftmost_skip_nonword _ _ ih2 sep hnw
      have hg : ∀ c r, sep ++ renderUsers sep (e2 :: es) = c :: r → isWordChar c = false := by
        intro c r hcr
        cases sep with
        | nil => exact absurd rfl hsep
        | cons d ds =>
          simp only [List.cons_append, List.cons.injEq] at hcr
          rw [← hcr.1]
          exact hnw d (List.mem_cons_self _ _)
      exact LeftmostMatches.take _ _ _ _ _ hp hg hrest

theorem findAllStringSubmatch_render (users : String) (sep : List Char) (hsep : sep ≠ [])
    (hnw : ∀ c ∈ sep, isWordChar c = false) (entries : List (String × String))
    (hwf : ∀ e ∈ entries, WellFormedEntry e) (hu : users.data = renderUsers sep entries) :
    FindAllStringSubmatch users = entries.map fun e =>
      { whole := String.mk (e.1.data ++ '=' :: e.2.data), g1 := e.1, g2 := e.2 } := by
  unfold FindAllStringSubmatch
  rw [hu, ← leftmost_unique (leftmost_renderUsers sep hsep hnw entries hwf), List.map_map]
  rfl

/-! ## The server: credential lookup, table construction, startup -/

theorem serverConf_usersMap (w : ServerWorld) (app : AppConf) (tr : List SEvent)
    (conf : ServerConfig) (hconf : serverConf w app = (tr, Outcome.ret conf)) :
    conf.AuthHandler.usersMap = buildUsersMap w app.Realm app.Users := by
  unfold serverConf at hconf
  simp only at hconf
  split at hconf
  · split at hconf
    · simp [logFatalf] at hconf
    · simp only [Prod.mk.injEq, Outcome.ret.injEq] at hconf
      rw [← hconf.2]
  · split at hconf
    · simp [logFatalf] at hconf
    · simp only [Prod.mk.injEq, Outcome.ret.injEq] at hconf
      rw [← hconf.2]

/-- An assignment keeps the keys of the table distinct. -/
theorem UsersMap.set_nodup (m : UsersMap) (k : String) (v : Bytes)
    (h : (m.map Prod.fst).Nodup) : ((m.set k v).map Prod.fst).Nodup := by
  unfold UsersMap.set
  rw [List.map_cons, List.nodup_cons]
  constructor
  · intro hk
    obtain ⟨e, he, hek⟩ := List.mem_map.mp hk
    have := (List.mem_filter.mp he).2
    simp only [bne_iff_ne, ne_eq] at this
    exact this hek
  · exact h.sublist ((List.filter_sublist m).map Prod.fst)

/-- The loop of `serverConf` leaves a table with distinct keys. -/
theorem foldl_set_nodup (f : Submatch → Bytes) :
    ∀ (ms : List Submatch) (init : UsersMap), (init.map Prod.fst).Nodup →
      ((ms.foldl (fun usersMap kv => usersMap.set kv.g1 (f kv)) init).map Prod.fst).Nodup := by
  intro ms
  induction ms with
  | nil => intro init h; exact h
  | cons a l ih =>
    intro init h
    exact ih _ (UsersMap.set_nodup init a.g1 (f a) h)

theorem buildUsersMap_nodup (w : ServerWorld) (realm users : String) :
    ((buildUsersMap w realm users).map Prod.fst).Nodup :=
  foldl_set_nodup _ _ [] List.nodup_nil

/-- In a table with distinct keys, a stored entry is what the read of its key
finds. -/
theorem UsersMap.get_of_mem : ∀ (m : UsersMap) (k : String) (v : Bytes),
    (m.map Prod.fst).Nodup → (k, v) ∈ m → m.get k = some v := by
  intro m
  induction m with
  | nil => intro k v _ h; simp at h
  | cons e m ih =>
    intro k v hnd hmem
    obtain ⟨a, b⟩ := e
    rw [List.map_cons, List.nodup_cons] at hnd
    unfold UsersMap.get
    rcases List.mem_cons.mp hmem with h | h
    · simp only [Prod.mk.injEq] at h
      obtain ⟨h1, h2⟩ := h
      subst h1 h2
      simp
    · have hne : ¬ k = a := by
        intro hka
        subst hka
        exact hnd.1 (List.mem_map.mpr ⟨(k, v), h, rfl⟩)
      have hbeq : (k == a) = false := by simpa using hne
      simp only [List.lookup_cons, hbeq]
      exact ih k v hnd.2 h

/-- The read of a name that is no key of the table finds nothing. -/
theorem UsersMap.get_of_not_mem : ∀ (m : UsersMap) (k : String),
    k ∉ m.map Prod.fst → m.get k = none := by
  intro m
  induction m with
  | nil => intro k _; rfl
  | cons e m ih =>
    intro k hk
    obtain ⟨a, b⟩ := e
    simp only [List.map_cons, List.mem_cons, not_or] at hk
    have hbeq : (k == a) = false := by simpa using hk.1
    unfold UsersMap.get
    simp only [List.lookup_cons, hbeq]
    exact ih k hk.2

/-- C1: the AuthHandler built by `serverConf` (TCP or UDP mode) holds the users
table, whose keys are distinct.  Called with any username, realm and source
address it returns `(key, true)` when the table stores the entry
`(username, key)`, and `(nil, false)` when the username is no key of the
table; it leaves the table as it was, and its result does not depend on the
realm or the source address. -/
theorem authHandler_lookup (w : ServerWorld) (app : AppConf) (tr : List SEvent)
    (conf : ServerConfig) (hconf : serverConf w app = (tr, Outcome.ret conf))
    (Addr : Type) (username realm : String) (srcAddr : Addr) :
    conf.AuthHandler.usersMap = buildUsersMap w app.Realm app.Users ∧
    (conf.AuthHandler.usersMap.map Prod.fst).Nodup ∧
    (∀ key, (username, key) ∈ conf.AuthHandler.usersMap →
      (conf.AuthHandler.call username realm srcAddr).1 = (key, true)) ∧
    (username ∉ conf.AuthHandler.usersMap.map Prod.fst →
      (conf.AuthHandler.call username realm srcAddr).1 = ([], false)) ∧
    (conf.AuthHandler.call username realm srcAddr).2 = conf.AuthHandler ∧
    (∀ (realm2 : String) (srcAddr2 : Addr),
      conf.AuthHandler.call username realm2 srcAddr2 =
        conf.AuthHandler.call username realm srcAddr) := by
  have htab := serverConf_usersMap w app tr conf hconf
  have hnd : (conf.AuthHandler.usersMap.map Prod.fst).Nodup := by
    rw [htab]
    exact buildUsersMap_nodup w app.Realm app.Users
  refine ⟨htab, hnd, ?_, ?_, ?_, ?_⟩
  · intro key hk
    have := UsersMap.get_of_mem _ _ _ hnd hk
    simp [AuthHandler.call, this]
  · intro hk
    have := UsersMap.get_of_not_mem _ _ hk
    simp [AuthHandler.call, this]
  · unfold AuthHandler.call
    split <;> rfl
  · intro realm2 srcAddr2
    rfl

theorem authHandler_lookup_witness :
    (∃ conf tr, serverConf (sampleServerWorld sampleAppTCP) sampleAppTCP = (tr, Outcome.ret conf) ∧
      (conf.AuthHandler.call "bob" "other realm" (0 : Nat)).1 =
        ((sampleServerWorld sampleAppTCP).GenerateAuthKey "bob" "pion.ly" "hunter2", true)) ∧
    (∃ conf tr, serverConf (sampleServerWorld sampleAppUDP) sampleAppUDP = (tr, Outcome.ret conf) ∧
      (conf.AuthHandler.call "" "pion.ly" (0 : Nat)).1 = ([], false) ∧
      (conf.AuthHandler.call "alice=secret" "pion.ly" (0 : Nat)).1 = ([], false)) := by
  refine ⟨⟨_, _, rfl, ?_⟩, ⟨_, _, rfl, ?_, ?_⟩⟩
  · exact (authHandler_lookup (sampleServerWorld sampleAppTCP) sampleAppTCP _ _ rfl
      Nat "bob" "other realm" 0).2.2.1 _ (by decide)
  · exact (authHandler_lookup (sampleServerWorld sampleAppUDP) sampleAppUDP _ _ rfl
      Nat "" "pion.ly" 0).2.2.2.1 (by decide)
  · exact (authHandler_lookup (sampleServerWorld sampleAppUDP) sampleAppUDP _ _ rfl
      Nat "alice=secret" "pion.ly" 0).2.2.2.1 (by decide)

/-- C2: the users table of `serverConf` is filled from the leftmost
non-overlapping matches of `(\w+)=(\w+)` in the configured users string: a name
is a key exactly when some match captures it, and it maps to
`GenerateAuthKey(name, realm, secret)` for the secret of the last match with
that name.  For a users string made of well-formed entries `name=secret` with
distinct names, separated by a non-empty text without word characters, every
entry's name maps to the key of exactly its own triple. -/
theorem usersMap_construction (w : ServerWorld) (app : AppConf) :
    (∀ tr conf, serverConf w app = (tr, Outcome.ret conf) →
      conf.AuthHandler.usersMap = buildUsersMap w app.Realm app.Users) ∧
    LeftmostMatches app.Users.data
      ((FindAllStringSubmatch app.Users).map fun kv => (kv.g1.data, kv.g2.data)) ∧
    (∀ name : String,
      (buildUsersMap w app.Realm app.Users).get name =
        ((FindAllStringSubmatch app.Users).reverse.find? fun kv => kv.g1 == name).map
          fun kv => w.GenerateAuthKey name app.Realm kv.g2) ∧
    (∀ (sep : List Char) (entries : List (String × String)),
      sep ≠ [] → (∀ c ∈ sep, isWordChar c = false) →
      (∀ e ∈ entries, WellFormedEntry e) → (entries.map Prod.fst).Nodup →
      app.Users.data = renderUsers sep entries →
      ∀ e ∈ entries,
        (buildUsersMap w app.Realm app.Users).get e.1 =
          some (w.GenerateAuthKey e.1 app.Realm e.2)) := by
  have hget : ∀ name : String,
      (buildUsersMap w app.Realm app.Users).get name =
        ((FindAllStringSubmatch app.Users).reverse.find? fun kv => kv.g1 == name).map
          fun kv => w.GenerateAuthKey name app.Realm kv.g2 := by
    intro name
    unfold buildUsersMap
    rw [foldl_set_get (fun kv => w.GenerateAuthKey kv.g1 app.Realm kv.g2) name]
    cases hf : List.find? (fun kv => kv.g1 == name) (FindAllStringSubmatch app.Users).reverse with
    | none => rfl
    | some kv =>
      have := List.find?_some hf
      simp only [beq_iff_eq] at this
      simp [this]
  refine ⟨fun tr conf h => serverConf_usersMap w app tr conf h, ?_, hget, ?_⟩
  · have := findAll_leftmost app.Users.data.length app.Users.data (Nat.le_refl _)
    unfold FindAllStringSubmatch
    rw [List.map_map]
    have hid : ((fun kv : Submatch => (kv.g1.data, kv.g2.data)) ∘ fun p : List Char × List Char =>
        ({ whole := String.mk (p.1 ++ '=' :: p.2), g1 := String.mk p.1, g2 := String.mk p.2 } :
          Submatch)) = id := by
      funext p
      rfl
    rw [hid, List.map_id]
    exact this
  · intro sep entries hsep hnw hwf hnd hu e he
    rw [hget, findAllStringSubmatch_render app.Users sep hsep hnw entries hwf hu]
    have hfind : List.find? (fun kv : Submatch => kv.g1 == e.1)
        (entries.map fun e : String × String =>
          ({ whole := String.mk (e.1.data ++ '=' :: e.2.data), g1 := e.1, g2 := e.2 } :
            Submatch)).reverse =
        some { whole := String.mk (e.1.data ++ '=' :: e.2.data), g1 := e.1, g2 := e.2 } := by
      apply find?_unique
      · rw [List.mem_reverse]
        exact List.mem_map.mpr ⟨e, he, rfl⟩
      · simp
      · intro y hy hpy
        rw [List.mem_reverse] at hy
        obtain ⟨e2, he2, rfl⟩ := List.mem_map.mp hy
        simp only [beq_iff_eq] at hpy
        have := List.inj_on_of_nodup_map hnd he2 he hpy
        rw [this]
    rw [hfind]
    rfl

theorem usersMap_construction_witness :
    (buildUsersMap (sampleServerWorld sampleAppUDP) "pion.ly" "alice=secret,bob=hunter2").get "bob"
      = some ((sampleServerWorld sampleAppUDP).GenerateAuthKey "bob" "pion.ly" "hunter2") :=
  (usersMap_construction (sampleServerWorld sampleAppUDP) sampleAppUDP).2.2.2
    [','] [("alice", "secret"), ("bob", "hunter2")] (by decide) (by decide) (by decide)
    (by decide) (by decide) ("bob", "hunter2") (by decide)

/-- C3: when binding the main listening transport fails, `serverConf` ends the
process through `log.Fatalf` (exit status 1) and returns no configuration, and
`main` never calls `turn.NewServer`; when the bind succeeds `serverConf`
returns a configuration. -/
theorem bind_failure_fatal (w : ServerWorld) (app : AppConf) :
    (∀ err, bindError w app = some err →
      (∃ tr, serverConf w app =
          (tr ++ [SEvent.fatalf ("Failed to create TURN server listener: " ++ err)],
            Outcome.exit 1 ("Failed to create TURN server listener: " ++ err)) ∧
        ∀ ev ∈ tr, ev.isNewServer = false) ∧
      (w.readAppConf = Outcome.ret app →
        (serverMain w false).2 =
            Outcome.exit 1 ("Failed to create TURN server listener: " ++ err) ∧
          ∀ printVersion, ∀ ev ∈ (serverMain w printVersion).1, ev.isNewServer = false)) ∧
    (bindError w app = none → ∃ tr conf, serverConf w app = (tr, Outcome.ret conf)) := by
  constructor
  · intro err herr
    have hsc : ∃ tr, serverConf w app =
          (tr ++ [SEvent.fatalf ("Failed to create TURN server listener: " ++ err)],
            Outcome.exit 1 ("Failed to create TURN server listener: " ++ err)) ∧
        ∀ ev ∈ tr, ev.isNewServer = false := by
      unfold bindError at herr
      unfold serverConf
      by_cases htcp : app.IsTCP = true
      · simp only [htcp, if_true] at herr ⊢
        rw [herr]
        exact ⟨[.println "is tcp", .listen "tcp4" ("0.0.0.0:" ++ app.Port)], rfl, by
          simp [SEvent.isNewServer]⟩
      · simp only [htcp, if_false] at herr ⊢
        simp only [Bool.false_eq_true, if_false] at herr ⊢
        rw [herr]
        exact ⟨[.println "is udp", .listenPacket "udp4" ("0.0.0.0:" ++ app.Port)], rfl, by
          simp [SEvent.isNewServer]⟩
    refine ⟨hsc, ?_⟩
    intro hread
    obtain ⟨tr, htr, hno⟩ := hsc
    constructor
    · unfold serverMain
      simp [hread, htr]
    · intro printVersion ev hev
      unfold serverMain at hev
      cases printVersion with
      | true =>
        simp at hev
        subst hev
        rfl
      | false =>
        simp [hread, htr] at hev
        rcases hev with h | h | h | h
        · subst h; rfl
        · subst h; rfl
        · exact hno ev h
        · subst h; rfl
  · intro hnone
    unfold bindError at hnone
    unfold serverConf
    by_cases htcp : app.IsTCP = true
    · simp only [htcp, if_true] at hnone ⊢
      rw [hnone]
      exact ⟨_, _, rfl⟩
    · simp only [htcp, if_false] at hnone ⊢
      simp only [Bool.false_eq_true, if_false] at hnone ⊢
      rw [hnone]
      exact ⟨_, _, rfl⟩

theorem bind_failure_fatal_witness :
    (serverMain (sampleServerWorldNoBind sampleAppTCP) false).2 =
        Outcome.exit 1 "Failed to create TURN server listener: address already in use" ∧
      (∃ tr conf, serverConf (sampleServerWorld sampleAppUDP) sampleAppUDP =
        (tr, Outcome.ret conf)) :=
  ⟨(((bind_failure_fatal (sampleServerWorldNoBind sampleAppTCP) sampleAppTCP).1
      "address already in use" rfl).2 rfl).1,
    (bind_failure_fatal (sampleServerWorld sampleAppUDP) sampleAppUDP).2 rfl⟩

/-- C4: when the bind succeeds, the configuration `serverConf` returns has the
configured realm and exactly one transport entry: in TCP mode one
ListenerConfig and no PacketConnConfig, in UDP mode one PacketConnConfig and
no ListenerConfig; the entry is bound to `0.0.0.0:<port>` and its relay address
generator is static with `RelayAddress = ParseIP(publicIP)` and address
`0.0.0.0`. -/
theorem transport_mode_selection (w : ServerWorld) (app : AppConf)
    (hbind : bindError w app = none) :
    ∃ tr conf, serverConf w app = (tr, Outcome.ret conf) ∧ conf.Realm = app.Realm ∧
      (app.IsTCP = true →
        SEvent.listen "tcp4" ("0.0.0.0:" ++ app.Port) ∈ tr ∧
        conf.PacketConnConfigs = [] ∧
        conf.ListenerConfigs = [{
          Listener := { network := "tcp4", address := "0.0.0.0:" ++ app.Port }
          RelayAddressGenerator :=
            { RelayAddress := w.ParseIP app.PublicIP, Address := "0.0.0.0" } }]) ∧
      (app.IsTCP = false →
        SEvent.listenPacket "udp4" ("0.0.0.0:" ++ app.Port) ∈ tr ∧
        conf.ListenerConfigs = [] ∧
        conf.PacketConnConfigs = [{
          PacketConn := { PacketConn := { network := "udp4", address := "0.0.0.0:" ++ app.Port } }
          RelayAddressGenerator :=
            { RelayAddress := w.ParseIP app.PublicIP, Address := "0.0.0.0" } }]) := by
  unfold bindError at hbind
  unfold serverConf
  by_cases htcp : app.IsTCP = true
  · simp only [htcp, if_true] at hbind ⊢
    rw [hbind]
    exact ⟨_, _, rfl, rfl, fun _ => ⟨by simp, rfl, rfl⟩, fun h => by simp at h⟩
  · simp only [htcp, if_false] at hbind ⊢
    simp only [Bool.false_eq_true, if_false] at hbind ⊢
    rw [hbind]
    exact ⟨_, _, rfl, rfl, fun h => by simp at h, fun _ => ⟨by simp, rfl, rfl⟩⟩

theorem transport_mode_selection_witness :
    ∃ tr conf, serverConf (sampleServerWorld sampleAppTCP) sampleAppTCP = (tr, Outcome.ret conf) ∧
      conf.Realm = "pion.ly" ∧ conf.PacketConnConfigs = [] ∧ conf.ListenerConfigs.length = 1 := by
  obtain ⟨tr, conf, h, hr, ht, _⟩ :=
    transport_mode_selection (sampleServerWorld sampleAppTCP) sampleAppTCP rfl
  obtain ⟨_, hp, hl⟩ := ht rfl
  exact ⟨tr, conf, h, hr, hp, by rw [hl]; rfl⟩

/-! ## Lemmas on `strings.SplitN` -/

theorem indexOf_eq_none {sep : Char} : ∀ {s : List Char}, indexOf sep s = none ↔ sep ∉ s := by
  intro s
  induction s with
  | nil => simp [indexOf]
  | cons c cs ih =>
    by_cases h : c = sep
    · simp [indexOf, h]
    · have h2 : ¬ sep = c := fun e => h e.symm
      simp [indexOf, h, h2, ih]

theorem indexOf_append {sep : Char} : ∀ (u p : List Char), sep ∉ u →
    indexOf sep (u ++ sep :: p) = some u.length := by
  intro u p
  induction u with
  | nil => intro _; simp [indexOf]
  | cons c cs ih =>
    intro h
    have hc : ¬ c = sep := fun e => h (by simp [e])
    have hcs : sep ∉ cs := fun e => h (List.mem_cons_of_mem _ e)
    simp [indexOf, hc, ih hcs]

theorem genSplit_two_of_not_mem {s : List Char} (h : '=' ∉ s) : genSplit s '=' 2 = [s] := by
  have hi : indexOf '=' s = none := indexOf_eq_none.mpr h
  cases s with
  | nil => rfl
  | cons c cs =>
    have hn : ¬ 2 > (c :: cs).length + 1 := by simp
    simp only [genSplit, hn]
    simp [splitLoop, hi]

theorem genSplit_two_of_append {u p : List Char} (h : '=' ∉ u) :
    genSplit (u ++ '=' :: p) '=' 2 = [u, p] := by
  have hi := indexOf_append u p h
  have hn : ¬ 2 > (u ++ '=' :: p).length + 1 := by
    simp only [List.length_append, List.length_cons]
    omega
  simp only [genSplit, hn]
  simp [splitLoop, hi]

theorem mem_split {c : Char} : ∀ {s : List Char}, c ∈ s → ∃ u p, s = u ++ c :: p ∧ c ∉ u := by
  intro s
  induction s with
  | nil => intro h; simp at h
  | cons a l ih =>
    intro h
    by_cases hac : c = a
    · exact ⟨[], l, by simp [hac], by simp⟩
    · have hl : c ∈ l := by
        rcases List.mem_cons.mp h with h1 | h1
        · exact absurd h1 hac
        · exact h1
      obtain ⟨u, p, hs, hu⟩ := ih hl
      refine ⟨a :: u, p, by simp [hs], ?_⟩
      intro hm
      rcases List.mem_cons.mp hm with h1 | h1
      · exact hac h1
      · exact hu h1

theorem SplitN_two_of_not_mem {user : String} (h : '=' ∉ user.data) : SplitN user 2 = [user] := by
  unfold SplitN
  rw [genSplit_two_of_not_mem h]
  rfl

theorem SplitN_two_of_append {u p : String} (h : '=' ∉ u.data) :
    SplitN (u ++ "=" ++ p) 2 = [u, p] := by
  unfold SplitN
  have hd : (u ++ "=" ++ p).data = u.data ++ '=' :: p.data := by
    simp [String.data_append]
  rw [hd, genSplit_two_of_append h]
  rfl

theorem SplitN_two_of_mem {user : String} (h : '=' ∈ user.data) :
    ∃ u p : String, SplitN user 2 = [u, p] ∧ user = u ++ "=" ++ p ∧ '=' ∉ u.data := by
  obtain ⟨u, p, hs, hu⟩ := mem_split h
  have huser : user = String.mk u ++ "=" ++ String.mk p := by
    apply String.ext
    simp [String.data_append, hs]
  refine ⟨String.mk u, String.mk p, ?_, huser, hu⟩
  rw [huser]
  exact SplitN_two_of_append hu

theorem SplitN_length_two_iff (user : String) :
    (SplitN user 2).length = 2 ↔ '=' ∈ user.data := by
  constructor
  · intro h
    by_contra hn
    rw [SplitN_two_of_not_mem hn] at h
    simp at h
  · intro h
    obtain ⟨u, p, hs, _, _⟩ := SplitN_two_of_mem h
    rw [hs]
    rfl

theorem length_eq_zero_iff (s : String) : s.length = 0 ↔ s = "" := by
  constructor
  · intro h
    apply String.ext
    exact List.length_eq_zero.mp h
  · intro h
    subst h
    rfl

/-! ## The client: credentials -/

theorem clientConf_of_parse (w : ClientWorld) (args : List String) (fs : FlagSet)
    (hparse : flagParse w.parseInt clientFlags args = Outcome.ret fs) :
    (clientConf w args).2.2 =
      (clientConfBody w (fs.getStr "host") (fs.getInt "port") (fs.getStr "user")
        (fs.getStr "realm") (fs.getBool "is-tcp")).2 := by
  unfold clientConf
  rw [hparse]

theorem index_single (user : String) :
    index [user] 1 = Outcome.panic "runtime error: index out of range [1] with length 1" := by
  show Outcome.panic ("runtime error: index out of range [" ++ toString 1 ++ "] with length " ++
    toString 1) = _
  exact congrArg Outcome.panic (by decide)

theorem mkClientConfig_single (addr : String) (conn : Conn) (user realm : String) :
    mkClientConfig addr conn [user] realm =
      Outcome.panic "runtime error: index out of range [1] with length 1" := by
  unfold mkClientConfig
  rw [index_single]
  rfl

/-- C8: `cred = SplitN(user, "=", 2)` has length 2 exactly when the user value
contains `=`, and then `cred[1]` is in bounds; without `=` the read of
`cred[1]` is out of range.  For a non-empty user value without `=` (the check
on it is reached, so the host is not empty), `clientConf` panics: it neither
returns a configuration nor ends with a usage error, and once the connection
is made the panic is the index error. -/
theorem cred_index_out_of_range (w : ClientWorld) (args : List String) (fs : FlagSet)
    (hparse : flagParse w.parseInt clientFlags args = Outcome.ret fs) :
    ((SplitN (fs.getStr "user") 2).length = 2 ↔ '=' ∈ (fs.getStr "user").data) ∧
    ('=' ∈ (fs.getStr "user").data → ∃ password, index (SplitN (fs.getStr "user") 2) 1 =
      Outcome.ret password) ∧
    ('=' ∉ (fs.getStr "user").data → index (SplitN (fs.getStr "user") 2) 1 =
      Outcome.panic "runtime error: index out of range [1] with length 1") ∧
    (fs.getStr "host" ≠ "" → fs.getStr "user" ≠ "" → '=' ∉ (fs.getStr "user").data →
      (∃ msg, (clientConf w args).2.2 = Outcome.panic msg) ∧
      ((if fs.getBool "is-tcp" = true then
          w.dialErr "tcp" (fs.getStr "host" ++ ":" ++ toString (fs.getInt "port")) = none
        else w.listenPacketErr "udp4" "0.0.0.0:0" = none ∧ w.connCloseErr = none) →
        (clientConf w args).2.2 =
          Outcome.panic "runtime error: index out of range [1] with length 1")) := by
  refine ⟨SplitN_length_two_iff _, ?_, ?_, ?_⟩
  · intro hmem
    obtain ⟨u, p, hs, _, _⟩ := SplitN_two_of_mem hmem
    rw [hs]
    exact ⟨p, rfl⟩
  · intro hnm
    rw [SplitN_two_of_not_mem hnm]
    exact index_single _
  · intro hh hne hnm
    have hh2 : ¬ (fs.getStr "host").length = 0 := fun e => hh ((length_eq_zero_iff _).mp e)
    have hu2 : ¬ (fs.getStr "user").length = 0 := fun e => hne ((length_eq_zero_iff _).mp e)
    rw [clientConf_of_parse w args fs hparse]
    unfold clientConfBody
    simp only [hh2, hu2, if_false, SplitN_two_of_not_mem hnm, mkClientConfig_single]
    refine ⟨?_, ?_⟩
    · cases fs.getBool "is-tcp" with
      | true =>
        simp only [if_true]
        cases w.dialErr "tcp" (fs.getStr "host" ++ ":" ++ toString (fs.getInt "port")) with
        | some err => exact ⟨_, rfl⟩
        | none => exact ⟨_, rfl⟩
      | false =>
        simp only [Bool.false_eq_true, if_false]
        cases w.listenPacketErr "udp4" "0.0.0.0:0" with
        | some err => exact ⟨_, rfl⟩
        | none =>
          cases w.connCloseErr with
          | some err => exact ⟨_, rfl⟩
          | none => exact ⟨_, rfl⟩
    · intro hconn
      cases hb : fs.getBool "is-tcp" with
      | true =>
        simp only [hb, if_true] at hconn ⊢
        rw [hconn]
      | false =>
        simp only [hb, Bool.false_eq_true, if_false] at hconn ⊢
        rw [hconn.1, hconn.2]
        rfl

theorem cred_index_out_of_range_witness :
    (clientConf sampleClientWorld ["-host", "turn.example.com", "-user", "alice"]).2.2 =
      Outcome.panic "runtime error: index out of range [1] with length 1" :=
  (cred_index_out_of_range sampleClientWorld ["-host", "turn.example.com", "-user", "alice"]
    ((clientFlags.assign "host" (.str "turn.example.com")).assign "user" (.str "alice"))
    (by decide)).2.2.2 (by decide) (by decide) (by decide) |>.2 (by decide)

/-! ## The client: the `-ping` option -/

theorem define_getBool_false {fs fs1 : FlagSet} {name : String}
    (h : fs.define name (FlagValue.bool false) = some fs1) : fs1.getBool name = false := by
  unfold FlagSet.define at h
  cases hl : fs.lookup name with
  | some f => simp [hl] at h
  | none =>
    simp only [hl, Option.some.injEq] at h
    subst h
    unfold FlagSet.lookup at hl
    simp [FlagSet.getBool, FlagSet.lookup, List.find?_append, hl]

/-- Whatever the flags and the world, `testClient` does not call `doPingTest`. -/
theorem testClient_no_ping (w : ClientWorld) (fs : FlagSet) :
    CEvent.doPingTest ∉ (testClient w fs).1 := by
  unfold testClient
  cases hd : fs.define "ping" (FlagValue.bool false) with
  | none => simp
  | some fs1 =>
    simp only [define_getBool_false hd]
    cases w.allocateErr with
    | some err => simp
    | none =>
      cases w.relayCloseErr <;> simp [deferClose]

theorem deferClose_trace_mem {α : Type} (closeErr : Option String) (ev : CEvent)
    (r : List CEvent × Outcome α) (x : CEvent) (h : x ∈ (deferClose closeErr ev r).1) :
    x ∈ r.1 ∨ x = ev := by
  unfold deferClose at h
  split at h
  · exact Or.inl h
  · split at h
    · simpa using h
    · simpa using h

theorem clientConfBody_no_ping (w : ClientWorld) (host : String) (port : Int)
    (user realm : String) (isTcp : Bool) :
    CEvent.doPingTest ∉ (clientConfBody w host port user realm isTcp).1 := by
  unfold clientConfBody
  by_cases hh : host.length = 0
  · simp [hh]
  · by_cases hu : user.length = 0
    · simp [hh, hu]
    · simp only [hh, hu, if_false]
      cases isTcp with
      | true =>
        simp only [if_true]
        cases w.dialErr "tcp" (host ++ ":" ++ toString port) <;> simp
      | false =>
        simp only [Bool.false_eq_true, if_false]
        cases w.listenPacketErr "udp4" "0.0.0.0:0" with
        | some err => simp
        | none =>
          intro hmem
          rcases deferClose_trace_mem _ _ _ _ hmem with h | h
          · simp at h
          · simp at h

theorem clientConf_no_ping (w : ClientWorld) (args : List String) :
    CEvent.doPingTest ∉ (clientConf w args).1 := by
  unfold clientConf
  split
  · simp
  · simp
  · have := clientConfBody_no_ping w
    simp [this]

theorem clientMain_no_ping (w : ClientWorld) (args : List String) :
    CEvent.doPingTest ∉ (clientMain w args).1 := by
  unfold clientMain
  have h1 := clientConf_no_ping w args
  split
  · rename_i tr _ _ _ heq
    rw [heq] at h1
    exact h1
  · rename_i tr _ _ heq
    rw [heq] at h1
    exact h1
  · rename_i tr fs cfg heq
    rw [heq] at h1
    simp only at h1
    have h2 := testClient_no_ping w fs
    split
    · simp [h1]
    · unfold deferClientClose
      split <;> split <;> simp_all

/-- C5 (the program against its own comment): with `-ping` on the command
line, next to a valid `-host` and `-user`, `flag.Parse` in `clientConf` runs
before the flag `ping` is defined, rejects it and exits with status 2; and on
no command line and in no world does the client call `doPingTest`.  Without
`-ping` the same command line reaches `Allocate`. -/
theorem ping_flag_rejected :
    (∀ w : ClientWorld,
      clientMain w ["-host", "turn.example.com", "-user", "alice=secret", "-ping"] =
        ([CEvent.flagParse ["-host", "turn.example.com", "-user", "alice=secret", "-ping"]],
          Outcome.exit 2 "flag provided but not defined: -ping")) ∧
    (∀ (w : ClientWorld) (args : List String), CEvent.doPingTest ∉ (clientMain w args).1) ∧
    CEvent.allocate ∈
      (clientMain sampleClientWorld ["-host", "turn.example.com", "-user", "alice=secret"]).1 := by
  refine ⟨fun w => ?_, clientMain_no_ping, by decide⟩
  rfl

/-! ## The client: permission before a relayed TCP connection -/

theorem takeValue_length {value : Option String} {rest rest2 : List String} {v : String}
    (h : takeValue value rest = some (v, rest2)) : rest2.length ≤ rest.length := by
  unfold takeValue at h
  split at h
  · simp only [Option.some.injEq, Prod.mk.injEq] at h
    rw [← h.2]
  · simp only [Option.some.injEq, Prod.mk.injEq] at h
    rw [← h.2]
    simp
  · exact absurd h (by simp)

theorem parseFlag_seen_length (parseInt : String → Option Int) (fs fs2 : FlagSet) (name : String)
    (value : Option String) (rest args2 : List String)
    (h : parseFlag parseInt fs name value rest = ParseStep.seen fs2 args2) :
    args2.length ≤ rest.length := by
  unfold parseFlag at h
  split at h
  · split at h <;> exact absurd h (by simp)
  · split at h
    · split at h
      · split at h
        · simp only [ParseStep.seen.injEq] at h
          rw [← h.2]
        · exact absurd h (by simp)
      · simp only [ParseStep.seen.injEq] at h
        rw [← h.2]
    · split at h
      · exact absurd h (by simp)
      · rename_i htv
        split at h
        · simp only [ParseStep.seen.injEq] at h
          rw [← h.2]
          exact takeValue_length htv
        · exact absurd h (by simp)
    · split at h
      · exact absurd h (by simp)
      · rename_i htv
        simp only [ParseStep.seen.injEq] at h
        rw [← h.2]
        exact takeValue_length htv

/-- A step of `parseOne` that sees a flag consumes at least one argument. -/
theorem parseOne_seen_length (parseInt : String → Option Int) (fs fs2 : FlagSet)
    (args args2 : List String) (h : parseOne parseInt fs args = ParseStep.seen fs2 args2) :
    args2.length < args.length := by
  unfold parseOne at h
  split at h
  · exact absurd h (by simp)
  · split at h
    · simp only at h
      split at h
      · exact absurd h (by simp)
      · split at h
        · exact absurd h (by simp)
        · split at h
          · exact absurd h (by simp)
          · have := parseFlag_seen_length _ _ _ _ _ _ _ h
            simp only [List.length_cons]
            omega
    · exact absurd h (by simp)

/-- Fuel beyond the number of arguments changes nothing: the loop of
`flag.Parse` ends by itself. -/
theorem flagParseFuel_eq (parseInt : String → Option Int) (n : Nat) :
    ∀ (m : Nat) (fs : FlagSet) (args : List String), args.length < n → args.length < m →
      flagParseFuel parseInt n fs args = flagParseFuel parseInt m fs args := by
  induction n with
  | zero => intro m fs args hn _; omega
  | succ n ih =>
    intro m fs args hn hm
    cases m with
    | zero => omega
    | succ m =>
      simp only [flagParseFuel]
      cases hp : parseOne parseInt fs args with
      | seen fs2 args2 =>
        have := parseOne_seen_length parseInt fs fs2 args args2 hp
        exact ih m fs2 args2 (by omega) (by omega)
      | stop fs2 args2 => rfl
      | help => rfl
      | fail msg => rfl

theorem flagParse_fuel (parseInt : String → Option Int) (fs : FlagSet) (args : List String)
    (k : Nat) :
    flagParseFuel parseInt (args.length + 1 + k) fs args = flagParse parseInt fs args :=
  flagParseFuel_eq parseInt _ _ fs args (by omega) (by omega)

end WionTurn
